import Mathlib

/-!
# Verification of the openloop research agent backend

Shallow embedding of `src/backend/src/agent` (`app.py`, `graph.py`, `utils.py`).
Python strings are modelled as `String` (or `List Char` where index arithmetic
matters), Python floats as `ℚ`, Python dicts as insertion-ordered association
lists, and the LLM/search collaborators as injected function parameters.
The LangGraph state reducers live in `agent/state.py`, which is not part of the
sources here; where needed they are modelled from the spec (§3/§4.1 of spec.md:
per-field append-reducers) and marked as such.
-/

namespace OpenLoop

/-- A source record `{url, title}` as produced by `web_research` (graph.py). -/
structure SourceRecord where
  url : String
  title : String
deriving DecidableEq, Repr

/-! ## Confidence scorer (`app.py`, `calculate_confidence_score`) -/

/-- `app.py` `calculate_confidence_score(sources, answer, research_loops, queries_run)`:
base 0.5, source bonus from `len(sources)`, answer bonus from `len(answer)`,
effort bonus from loop and query counts, result clamped via `max(0.1, min(1.0, _))`.
Floats are modelled as rationals. -/
def calculate_confidence_score (sources : List String) (answer : String)
    (research_loops : Nat) (queries_run : Nat) : ℚ :=
  let base_score : ℚ := 1/2
  let source_score : ℚ :=
    if sources.length ≥ 3 then 3/10
    else if sources.length ≥ 2 then 2/10
    else if sources.length ≥ 1 then 1/10
    else 0
  let answer_score : ℚ :=
    if answer.length > 500 then 2/10
    else if answer.length > 200 then 15/100
    else if answer.length > 50 then 1/10
    else 0
  let effort_score : ℚ :=
    (if research_loops ≥ 2 then 1/10 else 0) +
    (if queries_run ≥ 3 then 1/10 else 0)
  let final_score : ℚ := base_score + source_score + answer_score + effort_score
  max (1/10) (min 1 final_score)

/-- The spec's reference scoring definition (spec.md §4.6), stated on raw counts,
written from the spec's pseudocode (base/sourceBonus/answerBonus/effortBonus, clamp). -/
def score_spec (sourceCount answerLength roundCount queriesRun : Nat) : ℚ :=
  let base : ℚ := 1/2
  let sourceBonus : ℚ :=
    if sourceCount ≥ 3 then 3/10
    else if sourceCount ≥ 2 then 2/10
    else if sourceCount ≥ 1 then 1/10
    else 0
  let answerBonus : ℚ :=
    if answerLength > 500 then 2/10
    else if answerLength > 200 then 15/100
    else if answerLength > 50 then 1/10
    else 0
  let effortBonus : ℚ :=
    (if roundCount ≥ 2 then 1/10 else 0) +
    (if queriesRun ≥ 3 then 1/10 else 0)
  max (1/10) (min 1 (base + sourceBonus + answerBonus + effortBonus))

/-- C2: the confidence scorer is a pure total function equal to the spec's reference
definition (on the lengths of its list/string arguments); for all non-negative inputs
the result lies in `[0.1, 1.0]`; `score(0,10,1,1) = 0.5` and `score(3,600,2,4) = 1.0`. -/
theorem confidence_score_spec_conformance :
    (∀ (sources : List String) (answer : String) (r q : Nat),
        calculate_confidence_score sources answer r q =
          score_spec sources.length answer.length r q)
    ∧ (∀ sc al rc qr : Nat,
        1/10 ≤ score_spec sc al rc qr ∧ score_spec sc al rc qr ≤ 1)
    ∧ score_spec 0 10 1 1 = 1/2
    ∧ score_spec 3 600 2 4 = 1 := by
  refine ⟨fun _ _ _ _ => rfl, fun sc al rc qr => ?_, by norm_num [score_spec],
    by norm_num [score_spec]⟩
  unfold score_spec
  exact ⟨le_max_left _ _, max_le (by norm_num) (min_le_left _ _)⟩

/-! ## Finalizer (`graph.py`, `finalize_answer`) -/

/-- Output of the `finalize_answer` node: the final `AIMessage` content and the
`sources_gathered` entry of the returned state update. -/
structure FinalizeOutput where
  message_content : String
  sources_gathered : List SourceRecord
deriving DecidableEq, Repr

/-- `graph.py` `finalize_answer`, demo branch: builds the demo answer text from the
topic, the accumulated `web_research_result` entries (joined with `chr(10)`) and the
current date (`get_current_date` lives in `agent/prompts.py`, not under src/, so the
date is a parameter), and returns `sources_gathered` unchanged. -/
def finalize_answer_demo (research_topic : String) (web_research_result : List String)
    (sources_gathered : List SourceRecord) (current_date : String) : FinalizeOutput :=
  { message_content :=
      "# Research Results for: " ++ research_topic ++
      "\n\nBased on the research conducted, here are the key findings:\n\n## Summary\n" ++
      String.intercalate "\n" web_research_result ++
      "\n\n## Conclusion\nThis research provides comprehensive information about " ++
      research_topic ++
      ". The findings are based on multiple sources and current as of " ++ current_date ++
      ".\n\n*Note: This is a demo response. Configure your API keys for actual web research and AI-powered analysis.*\n"
    sources_gathered := sources_gathered }

/-- `graph.py` `finalize_answer`, non-demo branch: the composed answer comes from the
LLM collaborator (a parameter here); `unique_sources = state.get("sources_gathered", [])`
is returned as-is. -/
def finalize_answer_live (composed_answer : String)
    (sources_gathered : List SourceRecord) : FinalizeOutput :=
  { message_content := composed_answer
    sources_gathered := sources_gathered }

/-- C9: `finalize_answer` returns the accumulated source list exactly as accumulated,
in both branches, with duplicates preserved: no deduplication, reordering, filtering or
other transformation of `sources_gathered`. -/
theorem finalize_answer_sources_passthrough :
    (∀ (t : String) (w : List String) (s : List SourceRecord) (d : String),
        (finalize_answer_demo t w s d).sources_gathered = s)
    ∧ (∀ (a : String) (s : List SourceRecord),
        (finalize_answer_live a s).sources_gathered = s)
    ∧ (finalize_answer_demo "t" []
        [⟨"https://example.com/source1", "x"⟩, ⟨"https://example.com/source1", "x"⟩]
        "d").sources_gathered =
      [⟨"https://example.com/source1", "x"⟩, ⟨"https://example.com/source1", "x"⟩] :=
  ⟨fun _ _ _ _ => rfl, fun _ _ => rfl, rfl⟩

/-! ## Research topic rendering (`utils.py`, `get_research_topic`) -/

/-- A conversation message (`langchain_core` `HumanMessage`/`AIMessage`; `other` stands
for any message class that is neither, which `get_research_topic` skips). -/
inductive Message where
  | human (content : String)
  | ai (content : String)
  | other (content : String)
deriving DecidableEq, Repr

/-- The `.content` attribute of a message. -/
def Message.content : Message → String
  | .human c => c
  | .ai c => c
  | .other c => c

/-- `utils.py` `get_research_topic(messages)`: with exactly one message, the content of
`messages[-1]`; otherwise the fold appending `"User: {content}\n"` for human messages
and `"Assistant: {content}\n"` for AI messages. -/
def get_research_topic (messages : List Message) : String :=
  if messages.length = 1 then
    (messages.getLast?.map Message.content).getD ""
  else
    messages.foldl (fun acc m =>
      match m with
      | .human c => acc ++ ("User: " ++ c ++ "\n")
      | .ai c => acc ++ ("Assistant: " ++ c ++ "\n")
      | .other _ => acc) ""

/-- Per-message rendering of the multi-message branch: each user/assistant message
becomes a newline-terminated `"<Role>: <content>\n"` fragment, others contribute
nothing. -/
def renderMessage : Message → String
  | .human c => "User: " ++ c ++ "\n"
  | .ai c => "Assistant: " ++ c ++ "\n"
  | .other _ => ""

/-- Concatenation of the rendered fragments, in chronological order. -/
def renderAll : List Message → String
  | [] => ""
  | m :: ms => renderMessage m ++ renderAll ms

/-- The multi-message fold of `get_research_topic` concatenates newline-terminated
fragments onto the accumulator. -/
theorem research_topic_foldl (messages : List Message) (acc : String) :
    messages.foldl (fun acc m =>
      match m with
      | .human c => acc ++ ("User: " ++ c ++ "\n")
      | .ai c => acc ++ ("Assistant: " ++ c ++ "\n")
      | .other _ => acc) acc = acc ++ renderAll messages := by
  induction messages generalizing acc with
  | nil => simp [renderAll]
  | cons m ms ih =>
    cases m <;>
      simp only [List.foldl_cons, renderAll, renderMessage] <;>
      rw [ih] <;>
      simp [String.append_assoc]

/-- C8 counterexample: on two messages the code produces a trailing newline, so the
result is not the `"<Role>: <content>"` lines joined by newlines as the claim states. -/
theorem get_research_topic_counterexample :
    get_research_topic [Message.human "a", Message.ai "b"] = "User: a\nAssistant: b\n"
    ∧ get_research_topic [Message.human "a", Message.ai "b"] ≠
        String.intercalate "\n" ["User: a", "Assistant: b"] := by
  exact ⟨rfl, by decide⟩

/-- C8 (amended): with exactly one message its content is returned verbatim; with any
other number of messages the result is the concatenation, in chronological order, of a
newline-terminated `"<Role>: <content>\n"` fragment per user/assistant message. -/
theorem get_research_topic_spec :
    (∀ m : Message, get_research_topic [m] = m.content)
    ∧ (∀ messages : List Message, messages.length ≠ 1 →
        get_research_topic messages = renderAll messages) := by
  constructor
  · intro m
    cases m <;> rfl
  · intro messages h
    unfold get_research_topic
    rw [if_neg h, research_topic_foldl]
    exact String.empty_append _

/-- C8 witness: the amended description evaluated on a concrete three-message history
(the skipped `other` message included). -/
theorem get_research_topic_spec_witness :
    get_research_topic [Message.human "a", Message.other "sys", Message.ai "b"] =
      renderAll [Message.human "a", Message.other "sys", Message.ai "b"] :=
  get_research_topic_spec.2 [Message.human "a", Message.other "sys", Message.ai "b"]
    (by decide)

/-! ## Public endpoints (`app.py`) -/

/-- The fields of the final graph state that `app.py` reads from the graph run:
`result["messages"][-1].content`, `sources_gathered`, `research_loop_count` and
`search_query`. -/
structure GraphResult where
  final_answer : String
  sources_gathered : List SourceRecord
  research_loop_count : Nat
  search_query : List String
deriving DecidableEq, Repr

/-- `app.py` source-formatting loop (shared by both endpoints): a source dict with url
and title becomes `"title: url"`, with only a url just the url, otherwise skipped. -/
def formatSource (s : SourceRecord) : Option String :=
  if s.url ≠ "" ∧ s.title ≠ "" then some (s.title ++ ": " ++ s.url)
  else if s.url ≠ "" then some s.url
  else none

/-- The `formatted_sources` list built by `app.py` from `sources_gathered`. -/
def formatSources (l : List SourceRecord) : List String :=
  l.filterMap formatSource

/-- The `ResearchResponse` model of `app.py` (metadata as a string-keyed map). -/
structure ResearchResponse where
  query : String
  answer : String
  sources : List String
  confidence_score : ℚ
  agent_type : String
  metadata : List (String × String)
deriving DecidableEq, Repr

/-- `app.py` `research_endpoint`: the body of its `try` is the graph run, whose outcome
enters here as an `Except` value; on success the response is built from the final state
with the computed confidence score, and on any exception `e` the `except` branch builds
the degraded response with answer `"Research failed: " ++ e`. -/
def research_endpoint (query : String) (outcome : Except String GraphResult) :
    ResearchResponse :=
  match outcome with
  | .ok result =>
    let formatted_sources := formatSources result.sources_gathered
    { query := query
      answer := result.final_answer
      sources := formatted_sources
      confidence_score := calculate_confidence_score formatted_sources
        result.final_answer result.research_loop_count result.search_query.length
      agent_type := "single-agent"
      metadata := [("research_loops", Nat.repr result.research_loop_count),
                   ("queries_run", Nat.repr result.search_query.length)] }
  | .error e =>
    { query := query
      answer := "Research failed: " ++ e
      sources := []
      confidence_score := 0
      agent_type := "error"
      metadata := [("error", e)] }

/-- C7: the `/research` entry point never lets an internal exception escape: for every
exception raised during a run it returns a well-formed response whose answer is a
failure description, whose source list is empty, and whose confidence score is 0.0. -/
theorem research_endpoint_error_handling :
    ∀ (q e : String),
      (research_endpoint q (Except.error e)).answer = "Research failed: " ++ e
      ∧ (research_endpoint q (Except.error e)).sources = []
      ∧ (research_endpoint q (Except.error e)).confidence_score = 0
      ∧ (research_endpoint q (Except.error e)).agent_type = "error" :=
  fun _ _ => ⟨rfl, rfl, rfl, rfl⟩

/-- The `"complete"` event payload that `app.py` `research_stream_endpoint` emits at
the end of a streamed run. -/
structure StreamCompleteEvent where
  event_type : String
  query : String
  answer : String
  sources : List String
  confidence_score : ℚ
  agent_type : String
  metadata : List (String × String)
deriving DecidableEq, Repr

/-- `app.py` `research_stream_endpoint`, final-event construction: answer and sources
from the final graph state, `confidence_score` the literal `0.8`. -/
def stream_complete_event (query : String) (final_result : GraphResult) :
    StreamCompleteEvent :=
  { event_type := "complete"
    query := query
    answer := final_result.final_answer
    sources := formatSources final_result.sources_gathered
    confidence_score := 4/5
    agent_type := "single-agent-streaming"
    metadata := [("research_loops", Nat.repr final_result.research_loop_count),
                 ("queries_run", Nat.repr final_result.search_query.length)] }

/-- C10: every `"complete"` event of the streaming endpoint reports the constant
confidence 0.8, independent of the query, the sources gathered, the answer and the
loop/query counts; in particular it differs from what the confidence scorer computes
on an empty run. -/
theorem stream_confidence_constant :
    (∀ (q : String) (fr : GraphResult),
        (stream_complete_event q fr).confidence_score = 4/5)
    ∧ (∀ (q₁ q₂ : String) (fr₁ fr₂ : GraphResult),
        (stream_complete_event q₁ fr₁).confidence_score =
          (stream_complete_event q₂ fr₂).confidence_score)
    ∧ (stream_complete_event "" ⟨"", [], 0, []⟩).confidence_score ≠
        calculate_confidence_score [] "" 0 0 := by
  refine ⟨fun _ _ => rfl, fun _ _ _ _ => rfl, ?_⟩
  norm_num [stream_complete_event, calculate_confidence_score]

/-! ## Citation marker insertion (`utils.py`, `insert_citation_markers`)

Python strings are modelled as `List Char` so that the index splicing is explicit. -/

/-- One `{label, short_url}` segment of a citation. -/
structure Segment where
  label : List Char
  short_url : List Char
deriving DecidableEq, Repr

/-- A citation dict: `start_index`, exclusive `end_index` into the original text, and
its ordered segments. -/
structure Citation where
  start_index : Nat
  end_index : Nat
  segments : List Segment
deriving DecidableEq, Repr

/-- The comparison realising Python's
`sorted(key=lambda c: (c["end_index"], c["start_index"]), reverse=True)`:
`a` may precede `b` iff the key of `a` is lexicographically ≥ the key of `b`.
A stable sort with this comparison is exactly CPython's stable descending sort. -/
def citationGE (a b : Citation) : Bool :=
  decide (b.end_index < a.end_index) ||
    (a.end_index == b.end_index && decide (b.start_index ≤ a.start_index))

/-- The marker string of one citation: the concatenation over its segments, in given
order, of `" [label](short_url)"`. -/
def buildMarker (segments : List Segment) : List Char :=
  segments.foldl
    (fun m s => m ++ (" [".toList ++ s.label ++ "](".toList ++ s.short_url ++ ")".toList))
    []

/-- One splice step: `text[:end_index] + marker + text[end_index:]`. -/
def spliceOne (text : List Char) (c : Citation) : List Char :=
  text.take c.end_index ++ buildMarker c.segments ++ text.drop c.end_index

/-- `utils.py` `insert_citation_markers(text, citations_list)`: stable-sort the
citations descending by `(end_index, start_index)` and fold the splice step over
them. -/
def insert_citation_markers (text : List Char) (citations_list : List Citation) :
    List Char :=
  (citations_list.mergeSort citationGE).foldl spliceOne text

/-- A splice at or after position `e` does not change the first `e` characters. -/
theorem spliceOne_take (text : List Char) (c : Citation) (e : Nat)
    (hc : e ≤ c.end_index) (ht : e ≤ text.length) :
    (spliceOne text c).take e = text.take e := by
  unfold spliceOne
  rw [List.append_assoc,
    List.take_append_of_le_length (by simp [List.length_take]; omega),
    List.take_take, Nat.min_eq_left hc]

/-- Splicing never shortens the text. -/
theorem spliceOne_length (text : List Char) (c : Citation) :
    text.length ≤ (spliceOne text c).length := by
  unfold spliceOne
  simp only [List.length_append, List.length_take, List.length_drop]
  omega

/-- C3: `insert_citation_markers` stable-sorts by `(end_index, start_index)`
descending (ties on `end_index` broken by larger `start_index` first) and splices each
marker at its original `end_index`; the spec's concrete example holds; and processing
citations whose `end_index` is at least `e` leaves the first `e` characters — hence the
offsets of not-yet-processed citations — untouched. -/
theorem insert_citation_markers_spec :
    (∀ cs : List Citation,
        (cs.mergeSort citationGE).Pairwise (fun a b => citationGE a b = true))
    ∧ (∀ cs : List Citation, (cs.mergeSort citationGE).Perm cs)
    ∧ insert_citation_markers "ABCDE".toList
        [⟨0, 3, [⟨"x".toList, "u".toList⟩]⟩] = "ABC [x](u)DE".toList
    ∧ (∀ (done : List Citation) (text : List Char) (e : Nat),
        (∀ c ∈ done, e ≤ c.end_index) → e ≤ text.length →
        (done.foldl spliceOne text).take e = text.take e) := by
  refine ⟨fun cs => ?_, fun cs => List.mergeSort_perm cs citationGE, ?_,
    fun done => ?_⟩
  · have h := @List.sorted_mergeSort _ citationGE
      (fun a b c hab hbc => ?_) (fun a b => ?_) cs
    · exact h.imp fun h => h
    · simp only [citationGE, Bool.or_eq_true, Bool.and_eq_true, decide_eq_true_eq,
        beq_iff_eq] at hab hbc ⊢
      omega
    · simp only [citationGE, Bool.or_eq_true, Bool.and_eq_true, decide_eq_true_eq,
        beq_iff_eq]
      omega
  · unfold insert_citation_markers
    rw [List.mergeSort_singleton]
    decide
  · induction done with
    | nil => intro text e _ _; rfl
    | cons c cs ih =>
      intro text e h ht
      have h1 : e ≤ c.end_index := h c (List.mem_cons_self c cs)
      have h2 : e ≤ (spliceOne text c).length :=
        ht.trans (spliceOne_length text c)
      calc ((c :: cs).foldl spliceOne text).take e
          = (cs.foldl spliceOne (spliceOne text c)).take e := rfl
        _ = (spliceOne text c).take e :=
            ih (spliceOne text c) e (fun x hx => h x (List.mem_cons_of_mem c hx)) h2
        _ = text.take e := spliceOne_take text c e h1 ht

/-- C3 witness: the prefix-preservation part of the theorem evaluated on the concrete
example citation with `e = 2`. -/
theorem insert_citation_markers_spec_witness :
    ([(⟨0, 3, [⟨"x".toList, "u".toList⟩]⟩ : Citation)].foldl spliceOne
        "ABCDE".toList).take 2 = "ABCDE".toList.take 2 :=
  insert_citation_markers_spec.2.2.2 [⟨0, 3, [⟨"x".toList, "u".toList⟩]⟩]
    "ABCDE".toList 2 (by decide) (by decide)

/-! ## Decimal rendering facts about `Nat.repr`

`resolve_urls` builds short urls with the f-string `f"{prefix}{id}-{idx}"`; the
round-id injectivity argument needs that decimal digit strings contain no dash and
that `Nat.repr` is injective. -/

/-- `Nat.digitChar` never yields the dash character. -/
theorem digitChar_ne_dash (m : Nat) : Nat.digitChar m ≠ '-' := by
  by_cases h : m < 16
  · interval_cases m <;> decide
  · have hs : Nat.digitChar m = '*' := by
      unfold Nat.digitChar
      repeat' rw [if_neg (by omega)]
    rw [hs]
    decide

/-- Every character that `Nat.toDigitsCore` emits is an accumulator character or a
digit character. -/
theorem toDigitsCore_mem (b : Nat) :
    ∀ (fuel n : Nat) (ds : List Char) (c : Char),
      c ∈ Nat.toDigitsCore b fuel n ds → c ∈ ds ∨ ∃ m, c = Nat.digitChar m := by
  intro fuel
  induction fuel with
  | zero => intro n ds c h; exact Or.inl h
  | succ f ih =>
    intro n ds c h
    simp only [Nat.toDigitsCore] at h
    split at h
    · rcases List.mem_cons.mp h with h | h
      · exact Or.inr ⟨n % b, h⟩
      · exact Or.inl h
    · rcases ih (n / b) (Nat.digitChar (n % b) :: ds) c h with h | h
      · rcases List.mem_cons.mp h with h | h
        · exact Or.inr ⟨n % b, h⟩
        · exact Or.inl h
      · exact Or.inr h

/-- The accumulator of `Nat.toDigitsCore` is simply appended to the emitted digits. -/
theorem toDigitsCore_acc (b : Nat) :
    ∀ (fuel n : Nat) (ds : List Char),
      Nat.toDigitsCore b fuel n ds = Nat.toDigitsCore b fuel n [] ++ ds := by
  intro fuel
  induction fuel with
  | zero => intro n ds; rfl
  | succ f ih =>
    intro n ds
    simp only [Nat.toDigitsCore]
    split
    · rfl
    · rw [ih (n / b) (Nat.digitChar (n % b) :: ds), ih (n / b) [Nat.digitChar (n % b)],
        List.append_assoc, List.singleton_append]

/-- `Nat.toDigitsCore` does not depend on the fuel once the fuel exceeds the input. -/
theorem toDigitsCore_fuel (b : Nat) (hb : 2 ≤ b) :
    ∀ (n f₁ f₂ : Nat), n < f₁ → n < f₂ →
      Nat.toDigitsCore b f₁ n [] = Nat.toDigitsCore b f₂ n [] := by
  intro n
  induction n using Nat.strong_induction_on with
  | _ n ih =>
    intro f₁ f₂ h₁ h₂
    match f₁, f₂ with
    | g₁ + 1, g₂ + 1 =>
      simp only [Nat.toDigitsCore]
      split
      · rfl
      · rename_i hne
        have hpos : 0 < n := by
          rcases Nat.eq_zero_or_pos n with h | h
          · exact absurd (by simp [h]) hne
          · exact h
        have hdiv : n / b < n := Nat.div_lt_self hpos hb
        rw [toDigitsCore_acc b g₁ (n / b), toDigitsCore_acc b g₂ (n / b),
          ih (n / b) hdiv g₁ g₂ (by omega) (by omega)]

/-- `Nat.toDigits 10` unfolds: a single digit below 10, otherwise the digits of
`n / 10` followed by the digit of `n % 10`. -/
theorem toDigits_unfold (n : Nat) :
    Nat.toDigits 10 n =
      if n < 10 then [Nat.digitChar n]
      else Nat.toDigits 10 (n / 10) ++ [Nat.digitChar (n % 10)] := by
  by_cases h : n < 10
  · rw [if_pos h]
    show Nat.toDigitsCore 10 (n + 1) n [] = _
    simp only [Nat.toDigitsCore]
    rw [if_pos (Nat.div_eq_of_lt h), Nat.mod_eq_of_lt h]
  · rw [if_neg h]
    have hdiv : n / 10 ≠ 0 := fun h0 => h ((Nat.div_eq_zero_iff (by omega)).mp h0)
    have hfn : n / 10 < n := Nat.div_lt_self (by omega) (by omega)
    calc Nat.toDigits 10 n
        = Nat.toDigitsCore 10 (n + 1) n [] := rfl
      _ = Nat.toDigitsCore 10 n (n / 10) [Nat.digitChar (n % 10)] := by
          simp only [Nat.toDigitsCore]
          rw [if_neg hdiv]
      _ = Nat.toDigitsCore 10 n (n / 10) [] ++ [Nat.digitChar (n % 10)] :=
          toDigitsCore_acc 10 n (n / 10) _
      _ = Nat.toDigitsCore 10 (n / 10 + 1) (n / 10) [] ++ [Nat.digitChar (n % 10)] := by
          rw [toDigitsCore_fuel 10 (by omega) (n / 10) n (n / 10 + 1) hfn
            (Nat.lt_succ_self _)]
      _ = Nat.toDigits 10 (n / 10) ++ [Nat.digitChar (n % 10)] := rfl

/-- Decimal decoding of a digit-character string. -/
def decodeDigits (ds : List Char) : Nat :=
  ds.foldl (fun a c => a * 10 + (c.toNat - 48)) 0

/-- Decoding inverts `Nat.toDigits 10`. -/
theorem decode_toDigits : ∀ n : Nat, decodeDigits (Nat.toDigits 10 n) = n := by
  intro n
  induction n using Nat.strong_induction_on with
  | _ n ih =>
    rw [toDigits_unfold]
    split
    · rename_i h
      have hv : (Nat.digitChar n).toNat - 48 = n := by interval_cases n <;> decide
      simp [decodeDigits, hv]
    · rename_i h
      have hdiv : n / 10 < n := Nat.div_lt_self (by omega) (by omega)
      have hv : (Nat.digitChar (n % 10)).toNat - 48 = n % 10 := by
        have : n % 10 < 10 := Nat.mod_lt n (by omega)
        interval_cases h : n % 10 <;> decide
      simp only [decodeDigits, List.foldl_append, List.foldl_cons, List.foldl_nil]
      have := ih (n / 10) hdiv
      simp only [decodeDigits] at this
      rw [this, hv]
      omega

/-- `Nat.repr` is injective. -/
theorem repr_injective {m n : Nat} (h : Nat.repr m = Nat.repr n) : m = n := by
  have hd : Nat.toDigits 10 m = Nat.toDigits 10 n := congrArg String.data h
  calc m = decodeDigits (Nat.toDigits 10 m) := (decode_toDigits m).symm
    _ = decodeDigits (Nat.toDigits 10 n) := by rw [hd]
    _ = n := decode_toDigits n

/-- No dash occurs in the decimal representation of a natural number. -/
theorem repr_no_dash (n : Nat) : '-' ∉ (Nat.repr n).data := by
  intro hmem
  rcases toDigitsCore_mem 10 (n + 1) n [] '-' hmem with h | ⟨m, h⟩
  · exact absurd h (List.not_mem_nil '-')
  · exact digitChar_ne_dash m h.symm

/-- Splitting two equal lists at their first dash: if neither prefix contains a dash,
prefixes and suffixes agree. -/
theorem append_dash_inj :
    ∀ (d₁ d₂ x₁ x₂ : List Char), '-' ∉ d₁ → '-' ∉ d₂ →
      d₁ ++ '-' :: x₁ = d₂ ++ '-' :: x₂ → d₁ = d₂ ∧ x₁ = x₂ := by
  intro d₁
  induction d₁ with
  | nil =>
    intro d₂ x₁ x₂ _ h₂ h
    cases d₂ with
    | nil => exact ⟨rfl, by simpa using h⟩
    | cons b bs =>
      simp only [List.nil_append, List.cons_append, List.cons.injEq] at h
      exact absurd (List.mem_cons.mpr (Or.inl h.1)) h₂
  | cons a as ih =>
    intro d₂ x₁ x₂ h₁ h₂ h
    cases d₂ with
    | nil =>
      simp only [List.cons_append, List.nil_append, List.cons.injEq] at h
      exact absurd (List.mem_cons.mpr (Or.inl h.1.symm)) h₁
    | cons b bs =>
      simp only [List.cons_append, List.cons.injEq] at h
      have := ih bs x₁ x₂ (fun hx => h₁ (List.mem_cons.mpr (Or.inr hx)))
        (fun hx => h₂ (List.mem_cons.mpr (Or.inr hx))) h.2
      exact ⟨by rw [h.1, this.1], this.2⟩

/-! ## URL resolution (`utils.py`, `resolve_urls`) -/

/-- The literal url stub (the variable named after it in `resolve_urls`). -/
def short_url_base : String := "https://openai-search.cloud.com/id/"

/-- The short url `f"{prefix}{id}-{idx}"` built inside the loop of `resolve_urls`. -/
def short_url (roundId idx : Nat) : String :=
  short_url_base ++ Nat.repr roundId ++ "-" ++ Nat.repr idx

/-- The `for idx, url in enumerate(urls)` loop of `resolve_urls`. Python's dict is an
insertion-ordered association list; `url not in resolved_map` is a key-membership
test, so a url already present keeps its first mapping. -/
def resolveLoop (roundId : Nat) :
    List String → Nat → List (String × String) → List (String × String)
  | [], _, m => m
  | u :: rest, idx, m =>
    resolveLoop roundId rest (idx + 1)
      (if (m.lookup u).isSome then m else m ++ [(u, short_url roundId idx)])

/-- `utils.py` `resolve_urls(urls_to_resolve, id)`; the raw references enter as
strings (the `str(site)` arm of the comprehension). -/
def resolve_urls (urls_to_resolve : List String) (roundId : Nat) :
    List (String × String) :=
  resolveLoop roundId urls_to_resolve 0 []

/-- Position of the first occurrence of `u` in a list of raw references. -/
def firstIdx : List String → String → Nat
  | [], _ => 0
  | x :: xs, u => if x = u then 0 else firstIdx xs u + 1

/-- Appending entries to an association list preserves existing bindings. -/
theorem lookup_append_some {β : Type} (m m' : List (String × β)) (u : String)
    (v : β) (h : m.lookup u = some v) : (m ++ m').lookup u = some v := by
  induction m with
  | nil => simp [List.lookup] at h
  | cons kv m ih =>
    simp only [List.lookup, List.cons_append] at h ⊢
    split at h
    · exact h
    · exact ih h

/-- Appending an entry for an absent key binds exactly that key. -/
theorem lookup_append_absent {β : Type} (m : List (String × β)) (u : String)
    (v : β) (h : m.lookup u = none) : (m ++ [(u, v)]).lookup u = some v := by
  induction m with
  | nil => simp [List.lookup]
  | cons kv m ih =>
    simp only [List.lookup, List.cons_append] at h ⊢
    split at h
    · simp at h
    · exact ih h

/-- Appending an entry for a different key does not bind `u`. -/
theorem lookup_append_other {β : Type} (m : List (String × β)) (u k : String)
    (v : β) (h : m.lookup u = none) (hk : k ≠ u) :
    (m ++ [(k, v)]).lookup u = none := by
  induction m with
  | nil =>
    simp only [List.nil_append, List.lookup]
    have hb : (u == k) = false := by
      simp [Ne.symm hk]
    rw [hb]
  | cons kv m ih =>
    simp only [List.lookup, List.cons_append] at h ⊢
    split at h
    · simp at h
    · exact ih h

/-- Bindings already recorded survive the rest of the resolution loop. -/
theorem resolveLoop_preserves (roundId : Nat) :
    ∀ (rest : List String) (idx : Nat) (m : List (String × String)) (u v : String),
      m.lookup u = some v → (resolveLoop roundId rest idx m).lookup u = some v := by
  intro rest
  induction rest with
  | nil => intro idx m u v h; exact h
  | cons x xs ih =>
    intro idx m u v h
    simp only [resolveLoop]
    split
    · exact ih (idx + 1) m u v h
    · exact ih (idx + 1) _ u v (lookup_append_some m _ u v h)

/-- The resolution loop binds each new raw reference to the short url of its first
occurrence, counting from the loop's running index. -/
theorem resolveLoop_lookup (roundId : Nat) :
    ∀ (rest : List String) (idx : Nat) (m : List (String × String)) (u : String),
      m.lookup u = none → u ∈ rest →
      (resolveLoop roundId rest idx m).lookup u =
        some (short_url roundId (idx + firstIdx rest u)) := by
  intro rest
  induction rest with
  | nil => intro idx m u _ hmem; exact absurd hmem (List.not_mem_nil u)
  | cons x xs ih =>
    intro idx m u hnone hmem
    simp only [resolveLoop]
    by_cases hx : x = u
    · subst hx
      rw [if_neg (by simp [hnone])]
      have hbound : (m ++ [(x, short_url roundId idx)]).lookup x =
          some (short_url roundId idx) := lookup_append_absent m x _ hnone
      have := resolveLoop_preserves roundId xs (idx + 1) _ x _ hbound
      rw [this]
      simp [firstIdx]
    · have hrest : u ∈ xs := by
        rcases List.mem_cons.mp hmem with h | h
        · exact absurd h.symm hx
        · exact h
      have hfirst : firstIdx (x :: xs) u = firstIdx xs u + 1 := by
        simp [firstIdx, hx]
      split
      · rw [ih (idx + 1) m u hnone hrest, hfirst]
        congr 2
        omega
      · rw [ih (idx + 1) _ u (lookup_append_other m u x _ hnone hx) hrest, hfirst]
        congr 2
        omega

/-- Distinct round ids give distinct short urls: the decimal digits of the round id
contain no dash, so the first dash after the fixed prefix delimits the round id. -/
theorem short_url_roundId_inj (id₁ id₂ idx₁ idx₂ : Nat) (h : id₁ ≠ id₂) :
    short_url id₁ idx₁ ≠ short_url id₂ idx₂ := by
  intro heq
  have hdata := congrArg String.data heq
  simp only [short_url, short_url_base, String.data_append, List.append_assoc] at hdata
  have hdata' := (List.append_right_inj _).mp hdata
  have hsplit := append_dash_inj (Nat.repr id₁).data (Nat.repr id₂).data
    (Nat.repr idx₁).data (Nat.repr idx₂).data (repr_no_dash id₁) (repr_no_dash id₂)
    (by simpa using hdata')
  exact h (repr_injective (String.ext hsplit.1))

/-- C4 counterexample: the same raw reference `"a"` under the same round id 0, but in
two calls whose input sequences differ, resolves to different short urls. -/
theorem resolve_urls_counterexample :
    (resolve_urls ["b", "a"] 0).lookup "a" = some (short_url 0 1)
    ∧ (resolve_urls ["a"] 0).lookup "a" = some (short_url 0 0)
    ∧ short_url 0 1 ≠ short_url 0 0 :=
  ⟨rfl, rfl, by decide⟩

/-- C4 (amended): `resolve_urls` maps each raw reference of the input to
`prefix + roundId + "-" + index` with `index` the position of its first occurrence in
this call's input (so duplicates within one call share one short url); two calls agree
on a reference exactly when its first-occurrence position (and the round id) agree;
and the same reference under different round ids yields different short urls. -/
theorem resolve_urls_spec :
    (∀ (urls : List String) (roundId : Nat) (u : String), u ∈ urls →
        (resolve_urls urls roundId).lookup u =
          some (short_url roundId (firstIdx urls u)))
    ∧ (∀ (urls urls' : List String) (roundId : Nat) (u : String),
        u ∈ urls → u ∈ urls' → firstIdx urls u = firstIdx urls' u →
        (resolve_urls urls roundId).lookup u = (resolve_urls urls' roundId).lookup u)
    ∧ (∀ (id₁ id₂ idx₁ idx₂ : Nat), id₁ ≠ id₂ →
        short_url id₁ idx₁ ≠ short_url id₂ idx₂) := by
  have hmain : ∀ (urls : List String) (roundId : Nat) (u : String), u ∈ urls →
      (resolve_urls urls roundId).lookup u =
        some (short_url roundId (firstIdx urls u)) := by
    intro urls roundId u hmem
    have := resolveLoop_lookup roundId urls 0 [] u rfl hmem
    simpa [resolve_urls] using this
  refine ⟨hmain, fun urls urls' roundId u h h' hidx => ?_, short_url_roundId_inj⟩
  rw [hmain urls roundId u h, hmain urls' roundId u h', hidx]

/-- C4 witness: the amended characterisation evaluated on a concrete call with a
duplicated reference. -/
theorem resolve_urls_spec_witness :
    (resolve_urls ["a", "b", "a"] 7).lookup "a" =
      some (short_url 7 (firstIdx ["a", "b", "a"] "a")) :=
  resolve_urls_spec.1 ["a", "b", "a"] 7 "a" (by decide)

/-! ## Workflow engine (`graph.py`) -/

/-- The state fields that `evaluate_research` reads (graph.py `ReflectionState`; the
optional `max_research_loops` is the per-run override read via `state.get`). -/
structure ReflectionState where
  is_sufficient : Bool
  knowledge_gap : String
  follow_up_queries : List String
  research_loop_count : Nat
  number_of_ran_queries : Nat
  max_research_loops : Option Nat
deriving DecidableEq, Repr

/-- The routing result of `evaluate_research`: the `"finalize_answer"` node name, or
the list of `Send("web_research", {"search_query": q, "id": i})` spawns. -/
inductive Route where
  | finalize
  | fanout (tasks : List (String × Nat))
deriving DecidableEq, Repr

/-- `graph.py` `evaluate_research`: finalize iff `is_sufficient` or
`research_loop_count >= max_research_loops` (per-state override when present, else the
configured default); otherwise one `web_research` task per follow-up query, with ids
`number_of_ran_queries + idx` in list order. -/
def evaluate_research (state : ReflectionState) (config_max_research_loops : Nat) :
    Route :=
  let max_research_loops := state.max_research_loops.getD config_max_research_loops
  if state.is_sufficient || decide (state.research_loop_count ≥ max_research_loops) then
    .finalize
  else
    .fanout (state.follow_up_queries.enum.map fun p =>
      (p.2, state.number_of_ran_queries + p.1))

/-- `graph.py` `continue_to_web_research`: one `web_research` task per planned query,
ids assigned by enumeration of the planned queries in order. -/
def continue_to_web_research (search_query : List String) : List (String × Nat) :=
  search_query.enum.map fun p => (p.2, p.1)

/-- `evaluate_research` routes to finalize exactly when the verdict is sufficient or
the loop counter has reached the effective maximum. -/
theorem evaluate_research_finalize_iff (st : ReflectionState) (cfg : Nat) :
    evaluate_research st cfg = .finalize ↔
      (st.is_sufficient = true ∨
        st.max_research_loops.getD cfg ≤ st.research_loop_count) := by
  simp only [evaluate_research]
  split
  · rename_i h
    simp only [Bool.or_eq_true, decide_eq_true_eq, ge_iff_le] at h
    simpa using h
  · rename_i h
    simp only [Bool.or_eq_true, decide_eq_true_eq, ge_iff_le] at h
    push_neg at h
    constructor
    · intro hc
      exact absurd hc (by simp)
    · intro hc
      rcases hc with hc | hc
      · exact absurd hc h.1
      · exact absurd hc (by omega)

/-- Whenever `evaluate_research` fans out, the spawned tasks are exactly the follow-up
queries paired with ids `number_of_ran_queries + idx`. -/
theorem evaluate_research_fanout_inv (st : ReflectionState) (cfg : Nat)
    (ts : List (String × Nat)) (h : evaluate_research st cfg = .fanout ts) :
    ts = st.follow_up_queries.enum.map fun p => (p.2, st.number_of_ran_queries + p.1) := by
  simp only [evaluate_research] at h
  split at h
  · exact absurd h (by simp)
  · exact (Route.fanout.injEq _ _).mp h.symm

/-- Enumerated task ids starting at `k` are the interval `[k, k + length)`. -/
theorem enum_task_ids (l : List String) (k : Nat) :
    ((l.enum.map fun p => (p.2, k + p.1)).map Prod.snd) = List.range' k l.length := by
  rw [List.map_map]
  rw [show (Prod.snd ∘ fun p : Nat × String => (p.2, k + p.1)) =
      ((k + ·) ∘ Prod.fst) from rfl]
  rw [← List.map_map, List.enum_map_fst, ← List.range'_eq_map_range]

/-- Enumerated tasks carry the queries unchanged, in order. -/
theorem enum_task_queries (l : List String) (k : Nat) :
    ((l.enum.map fun p => (p.2, k + p.1)).map Prod.fst) = l := by
  rw [List.map_map]
  rw [show (Prod.fst ∘ fun p : Nat × String => (p.2, k + p.1)) =
      (Prod.snd : Nat × String → String) from rfl]
  exact List.enum_map_snd l

/-- The round-0 fan-out keeps the queries and assigns ids `0..K-1`. -/
theorem continue_to_web_research_ids (qs : List String) :
    (continue_to_web_research qs).map Prod.snd = List.range qs.length
    ∧ (continue_to_web_research qs).map Prod.fst = qs := by
  constructor
  · unfold continue_to_web_research
    rw [List.map_map]
    rw [show (Prod.snd ∘ fun p : Nat × String => (p.2, p.1)) =
        (Prod.fst : Nat × String → Nat) from rfl]
    exact List.enum_map_fst qs
  · unfold continue_to_web_research
    rw [List.map_map]
    rw [show (Prod.fst ∘ fun p : Nat × String => (p.2, p.1)) =
        (Prod.snd : Nat × String → String) from rfl]
    exact List.enum_map_snd qs

/-- The reflect/evaluate loop of the compiled graph, abstracted to what drives routing:
`verdict r` is the reflection collaborator's sufficiency verdict at the `r`-th
reflection; each reflection increments the loop counter by 1 (graph.py) before
`evaluate_research` routes. Returns the number of reflection invocations until
Finalizing, `none` if the fuel runs out first. -/
def reflectLoop (verdict : Nat → Bool) (config_max : Nat) : Nat → Nat → Option Nat
  | _, 0 => none
  | count, fuel + 1 =>
    let count' := count + 1
    match evaluate_research
        { is_sufficient := verdict count
          knowledge_gap := ""
          follow_up_queries := ["q"]
          research_loop_count := count'
          number_of_ran_queries := 0
          max_research_loops := none } config_max with
    | .finalize => some 1
    | .fanout _ => (reflectLoop verdict config_max count' fuel).map (· + 1)

/-- With enough fuel the loop always finalizes, within `max (K - count) 1` further
reflections. -/
theorem reflectLoop_terminates (verdict : Nat → Bool) (K : Nat) :
    ∀ (fuel count : Nat), K ≤ count + fuel → 1 ≤ fuel →
      ∃ n, reflectLoop verdict K count fuel = some n ∧ n ≤ max (K - count) 1 := by
  intro fuel
  induction fuel with
  | zero => intro count _ h1; omega
  | succ f ih =>
    intro count hK _
    by_cases hfin : evaluate_research
        { is_sufficient := verdict count
          knowledge_gap := ""
          follow_up_queries := ["q"]
          research_loop_count := count + 1
          number_of_ran_queries := 0
          max_research_loops := none } K = .finalize
    · refine ⟨1, ?_, le_max_right _ _⟩
      simp only [reflectLoop, hfin]
    · have hlt : count + 1 < K := by
        by_contra hge
        refine hfin ((evaluate_research_finalize_iff _ K).mpr (Or.inr ?_))
        simp only [Option.getD_none]
        omega
      have hf : 1 ≤ f := by omega
      obtain ⟨n, heq, hb⟩ := ih (count + 1) (by omega) hf
      have hroute : ∃ ts, evaluate_research
          { is_sufficient := verdict count
            knowledge_gap := ""
            follow_up_queries := ["q"]
            research_loop_count := count + 1
            number_of_ran_queries := 0
            max_research_loops := none } K = .fanout ts := by
        cases hc : evaluate_research
            { is_sufficient := verdict count
              knowledge_gap := ""
              follow_up_queries := ["q"]
              research_loop_count := count + 1
              number_of_ran_queries := 0
              max_research_loops := none } K with
        | finalize => exact absurd hc hfin
        | fanout ts => exact ⟨ts, rfl⟩
      obtain ⟨ts, hts⟩ := hroute
      refine ⟨n + 1, ?_, ?_⟩
      · simp only [reflectLoop, hts, heq]
        rfl
      · rw [Nat.max_eq_left (by omega : 1 ≤ K - (count + 1))] at hb
        rw [Nat.max_eq_left (by omega : 1 ≤ K - count)]
        omega

/-- C1 counterexample: with `max_research_loops = 0` the graph still performs one
reflection before `evaluate_research` can route to finalize, so the engine does not
reach Finalizing within at most `K = 0` reflection invocations. -/
theorem engine_zero_max_counterexample :
    reflectLoop (fun _ => false) 0 0 1 = some 1
    ∧ reflectLoop (fun _ => false) 0 0 5 = some 1
    ∧ ¬ (1 : Nat) ≤ 0 :=
  ⟨rfl, rfl, by decide⟩

/-- C1 (amended): `evaluate_research` finalizes iff the verdict is sufficient or the
loop counter reached the effective maximum (per-state override, else the configured
default), and otherwise fans out one `web_research` task per follow-up query; since
each reflection increments the counter by 1 from 0, for `max_rounds = K` the engine
reaches Finalizing within at most `max K 1` reflection invocations regardless of the
collaborator's verdicts. -/
theorem evaluate_research_decision_and_termination :
    (∀ (st : ReflectionState) (cfg : Nat),
        evaluate_research st cfg = .finalize ↔
          (st.is_sufficient = true ∨
            st.max_research_loops.getD cfg ≤ st.research_loop_count))
    ∧ (∀ (st : ReflectionState) (cfg : Nat) (ts : List (String × Nat)),
        evaluate_research st cfg = .fanout ts →
        ts.map Prod.fst = st.follow_up_queries
          ∧ ts.length = st.follow_up_queries.length)
    ∧ (∀ (K : Nat) (verdict : Nat → Bool) (fuel : Nat), max K 1 ≤ fuel →
        ∃ n, reflectLoop verdict K 0 fuel = some n ∧ n ≤ max K 1) := by
  refine ⟨evaluate_research_finalize_iff, fun st cfg ts h => ?_, fun K verdict fuel h => ?_⟩
  · rw [evaluate_research_fanout_inv st cfg ts h]
    exact ⟨enum_task_queries _ _, by simp⟩
  · obtain ⟨n, heq, hb⟩ := reflectLoop_terminates verdict K fuel 0 (by omega) (by omega)
    exact ⟨n, heq, by simpa using hb⟩

/-- C1 witness: the amended bound applied at `K = 2` with an always-insufficient
collaborator and fuel 2. -/
theorem evaluate_research_decision_witness :
    ∃ n, reflectLoop (fun _ => false) 2 0 2 = some n ∧ n ≤ max 2 1 :=
  evaluate_research_decision_and_termination.2.2 2 (fun _ => false) 2 (by decide)

/-! ## Full engine runs (`graph.py` wiring, state merge modelled from the spec) -/

/-- The per-task output of the `web_research` node: the keys of the returned state
update (`sources_gathered`, the echoed `search_query`, one `web_research_result`). -/
structure TaskOutput where
  sources_gathered : List SourceRecord
  search_query : List String
  web_research_result : List String
deriving DecidableEq, Repr

/-- `graph.py` `web_research`, output shape shared by the demo and live branches: the
search/summarisation collaborators enter as one injected function from the query to
sources and a summary. -/
def web_research (runTask : String → List SourceRecord × String) (q : String) :
    TaskOutput :=
  { sources_gathered := (runTask q).1
    search_query := [q]
    web_research_result := [(runTask q).2] }

/-- The engine's shared state fields used by the loop. -/
structure EngineState where
  search_query : List String
  web_research_result : List String
  sources_gathered : List SourceRecord
  research_loop_count : Nat
deriving DecidableEq, Repr

/-- Modelled from the spec: the LangGraph reducers of `agent/state.py` are not under
src/; per spec.md §3/§4.1 the barrier merge appends each task's output to the
corresponding sequence field, so each issued query is accumulated exactly once (via
its task's echo). -/
def mergeTask (st : EngineState) (o : TaskOutput) : EngineState :=
  { st with
    search_query := st.search_query ++ o.search_query
    web_research_result := st.web_research_result ++ o.web_research_result
    sources_gathered := st.sources_gathered ++ o.sources_gathered }

/-- Events of a run trace, in engine order. -/
inductive Event where
  | planned (queries : List String)
  | ranTask (query : String) (id : Nat)
  | reflected (count : Nat)
  | finalized
deriving DecidableEq, Repr

/-- The collaborator bundle of one run (spec.md §6): the planner, the per-task
search-and-summarise step, and the reflection verdict with follow-up queries for each
reflection invocation. -/
structure Collaborators where
  plan : Nat → List String
  runTask : String → List SourceRecord × String
  reflect : Nat → Bool × List String

/-- The round loop of the compiled graph: merge the round's task outputs (barrier +
append-reducers), run `reflection` (which increments the loop counter by 1 and records
`number_of_ran_queries = len(state["search_query"])`), then route via
`evaluate_research`; fuel bounds the number of rounds. -/
def engineLoop (c : Collaborators) (config_max : Nat) :
    Nat → EngineState → List (String × Nat) → List Event → Nat →
      Option (EngineState × List Event)
  | _, _, _, _, 0 => none
  | r, st, tasks, trace, fuel + 1 =>
    let st₁ := tasks.foldl (fun s t => mergeTask s (web_research c.runTask t.1)) st
    let trace₁ := trace ++ tasks.map fun t => Event.ranTask t.1 t.2
    let count := st₁.research_loop_count + 1
    let verdict := c.reflect r
    let rst : ReflectionState :=
      { is_sufficient := verdict.1
        knowledge_gap := ""
        follow_up_queries := verdict.2
        research_loop_count := count
        number_of_ran_queries := st₁.search_query.length
        max_research_loops := none }
    match evaluate_research rst config_max with
    | .finalize =>
      some ({ st₁ with research_loop_count := count },
        trace₁ ++ [Event.reflected count, Event.finalized])
    | .fanout ts =>
      engineLoop c config_max (r + 1) { st₁ with research_loop_count := count } ts
        (trace₁ ++ [Event.reflected count]) fuel

/-- A full run: plan, fan out round 0 via `continue_to_web_research`, loop. -/
def engineRun (c : Collaborators) (config_max initial_query_count fuel : Nat) :
    Option (EngineState × List Event) :=
  let queries := c.plan initial_query_count
  engineLoop c config_max 0 ⟨[], [], [], 0⟩ (continue_to_web_research queries)
    [Event.planned queries] fuel

/-- The task ids of a trace, in issue order. -/
def taskIds (trace : List Event) : List Nat :=
  trace.filterMap fun e =>
    match e with
    | .ranTask _ i => some i
    | _ => none

/-- How many times the finalizer ran in a trace. -/
def finalizeCount (trace : List Event) : Nat :=
  trace.countP fun e =>
    match e with
    | .finalized => true
    | _ => false

/-- `taskIds` distributes over trace concatenation. -/
theorem taskIds_append (a b : List Event) : taskIds (a ++ b) = taskIds a ++ taskIds b :=
  List.filterMap_append a b _

/-- The ran-task events of a round contribute exactly the round's ids. -/
theorem taskIds_ranTasks (tasks : List (String × Nat)) :
    taskIds (tasks.map fun t => Event.ranTask t.1 t.2) = tasks.map Prod.snd := by
  induction tasks with
  | nil => rfl
  | cons t ts ih => simp [taskIds, List.filterMap_cons] at ih ⊢; exact ih

/-- The barrier merge appends exactly the round's echoed queries. -/
theorem foldMerge_search (rt : String → List SourceRecord × String) :
    ∀ (tasks : List (String × Nat)) (st : EngineState),
      (tasks.foldl (fun s t => mergeTask s (web_research rt t.1)) st).search_query =
        st.search_query ++ tasks.map Prod.fst := by
  intro tasks
  induction tasks with
  | nil => intro st; simp
  | cons t ts ih =>
    intro st
    simp only [List.foldl_cons, ih, List.map_cons]
    simp [mergeTask, web_research]

/-- The barrier merge leaves the loop counter unchanged. -/
theorem foldMerge_count (rt : String → List SourceRecord × String) :
    ∀ (tasks : List (String × Nat)) (st : EngineState),
      (tasks.foldl (fun s t => mergeTask s (web_research rt t.1)) st).research_loop_count =
        st.research_loop_count := by
  intro tasks
  induction tasks with
  | nil => intro st; rfl
  | cons t ts ih => intro st; simp only [List.foldl_cons, ih]; rfl

/-- Invariant of the round loop: if the trace so far carries exactly the ids
`0..len-1` of the accumulated queries and the pending round's ids continue that
interval, then any completed run's trace carries exactly the ids `0..total-1`, in
issue order. -/
theorem engineLoop_ids (c : Collaborators) (config_max : Nat) :
    ∀ (fuel r : Nat) (st : EngineState) (tasks : List (String × Nat))
      (trace : List Event) (res : EngineState × List Event),
      taskIds trace = List.range st.search_query.length →
      tasks.map Prod.snd = List.range' st.search_query.length tasks.length →
      engineLoop c config_max r st tasks trace fuel = some res →
      taskIds res.2 = List.range res.1.search_query.length := by
  intro fuel
  induction fuel with
  | zero =>
    intro r st tasks trace res _ _ h
    exact absurd h (by simp [engineLoop])
  | succ f ih =>
    intro r st tasks trace res htrace hids hrun
    simp only [engineLoop] at hrun
    have hsearch := foldMerge_search c.runTask tasks st
    have hlen :
        (tasks.foldl (fun s t => mergeTask s (web_research c.runTask t.1))
          st).search_query.length = st.search_query.length + tasks.length := by
      rw [hsearch]
      simp
    have htr :
        taskIds (trace ++ tasks.map fun t => Event.ranTask t.1 t.2) =
          List.range (st.search_query.length + tasks.length) := by
      rw [taskIds_append, taskIds_ranTasks, htrace, hids, List.range_add,
        ← List.range'_eq_map_range]
    split at hrun
    · rename_i heval
      cases hrun
      rw [taskIds_append, htr]
      have : taskIds [Event.reflected
          ((tasks.foldl (fun s t => mergeTask s (web_research c.runTask t.1))
            st).research_loop_count + 1), Event.finalized] = [] := rfl
      rw [this, List.append_nil, hlen]
    · rename_i ts heval
      refine ih (r + 1) _ ts _ res ?_ ?_ hrun
      · rw [taskIds_append, htr]
        have : taskIds [Event.reflected
            ((tasks.foldl (fun s t => mergeTask s (web_research c.runTask t.1))
              st).research_loop_count + 1)] = [] := rfl
        rw [this, List.append_nil, hlen]
      · have h' := evaluate_research_fanout_inv _ _ _ heval
        rw [h', enum_task_ids]
        simp [hlen]

/-- C5: the initial round's tasks receive ids `0..K-1` by enumeration, every
insufficient reflection fans out follow-ups with ids `number_of_ran_queries + idx` in
list order, and in any completed engine run the issued ids are exactly `0, 1, 2, ...`
in issue order — strictly increasing and never colliding across rounds. -/
theorem query_ids_strictly_increasing :
    (∀ qs : List String,
        (continue_to_web_research qs).map Prod.snd = List.range qs.length)
    ∧ (∀ (st : ReflectionState) (cfg : Nat) (ts : List (String × Nat)),
        evaluate_research st cfg = .fanout ts →
        ts.map Prod.snd = List.range' st.number_of_ran_queries ts.length)
    ∧ (∀ (c : Collaborators) (cfg n fuel : Nat) (st : EngineState)
        (trace : List Event),
        engineRun c cfg n fuel = some (st, trace) →
        taskIds trace = List.range st.search_query.length) := by
  refine ⟨fun qs => (continue_to_web_research_ids qs).1,
    fun st cfg ts h => ?_, fun c cfg n fuel st trace h => ?_⟩
  · have h' := evaluate_research_fanout_inv st cfg ts h
    rw [h', enum_task_ids]
    simp
  · have hb2 : (continue_to_web_research (c.plan n)).map Prod.snd =
        List.range' (EngineState.mk [] [] [] 0).search_query.length
          (continue_to_web_research (c.plan n)).length := by
      rw [(continue_to_web_research_ids _).1, List.range_eq_range']
      congr 1
      simp [continue_to_web_research]
    exact engineLoop_ids c cfg fuel 0 ⟨[], [], [], 0⟩
      (continue_to_web_research (c.plan n)) [Event.planned (c.plan n)] (st, trace)
      rfl hb2 h

/-- A minimal one-round scenario: one planned query, an immediately sufficient
reflection. -/
def tiny_collab : Collaborators :=
  { plan := fun _ => ["a"]
    runTask := fun _ => ([], "s")
    reflect := fun _ => (true, []) }

/-- C5 witness: the id characterisation applied to the completed one-round run of
`tiny_collab`. -/
theorem query_ids_witness :
    taskIds [Event.planned ["a"], Event.ranTask "a" 0, Event.reflected 1,
        Event.finalized] =
      List.range (EngineState.mk ["a"] ["s"] [] 1).search_query.length :=
  query_ids_strictly_increasing.2.2 tiny_collab 2 1 1
    (EngineState.mk ["a"] ["s"] [] 1)
    [Event.planned ["a"], Event.ranTask "a" 0, Event.reflected 1, Event.finalized]
    (by decide)

/-- The collaborators of the spec's end-to-end scenario: the planner returns 2
queries, the first reflection is insufficient with 2 follow-ups, the second is
sufficient. -/
def c6_collab : Collaborators :=
  { plan := fun _ => ["q1", "q2"]
    runTask := fun q => ([⟨"https://example.com/source1", q⟩], "summary " ++ q)
    reflect := fun r => if r = 0 then (false, ["q3", "q4"]) else (true, []) }

/-- C6: in the end-to-end scenario (initial_query_count = 2, first reflection
insufficient with 2 follow-ups, second sufficient) round 0 runs tasks with ids 0 and
1, round 1 runs the follow-ups with ids 2 and 3, the finalizer runs once, and the
final output reports rounds_run = 2 and queries_run = 4 (also through the `/research`
response metadata). -/
theorem end_to_end_scenario :
    ((engineRun c6_collab 2 2 5).map fun res =>
        (res.1.research_loop_count, res.1.search_query, taskIds res.2,
          finalizeCount res.2)) =
      some (2, ["q1", "q2", "q3", "q4"], [0, 1, 2, 3], 1)
    ∧ ((engineRun c6_collab 2 2 5).map fun res =>
        (research_endpoint "What is quantum computing?"
          (Except.ok ⟨"ans", res.1.sources_gathered, res.1.research_loop_count,
            res.1.search_query⟩)).metadata) =
      some [("research_loops", "2"), ("queries_run", "4")] :=
  ⟨by decide, by decide⟩

end OpenLoop
